import Mathlib

/-!
Shallow embedding of the `clap-nested` crate (src/lib.rs): the nested
command registry and dispatch engine.  Machine-level details of the
external `clap` parser are abstracted: an `App` is the schema skeleton
(name, about, author, subcommands), help rendering is an abstract
`render : App → String` function, and `Matches` is the structured parse
result (argument values plus at most one matched subcommand, as in
clap 2.x).  Rust panics (`unwrap` on a missing key, `unreachable!`) are
modelled as `none` results of `Option`-valued functions.
-/

namespace ClapNested

/-- Mirror of clap 2.x `ErrorKind` restricted to the classes the code
distinguishes: `HelpDisplayed`, `VersionDisplayed`, and the rest. -/
inductive ErrorKind where
  | helpDisplayed
  | versionDisplayed
  | unknownArgument
  | invalidSubcommand
  | missingRequiredArgument
  deriving DecidableEq, Repr

/-- Mirror of `clap::Error`: a formatted message and a kind. -/
structure ClapError where
  message : String
  kind : ErrorKind
  deriving DecidableEq, Repr

/-- `type Result = StdResult<(), ClapError>` from src/lib.rs. -/
abbrev CResult := Except ClapError Unit

/-- Schema skeleton of a clap `App`: the fields the library's own logic
reads or writes (`p.meta.name`, about, author, `p.subcommands`).  Flag
declarations and rendering details stay inside the external parser. -/
inductive App where
  | mk (name : String) (about : Option String) (author : Option String)
      (subs : List App)
  deriving Repr

def App.name : App → String
  | .mk n _ _ _ => n

def App.about : App → Option String
  | .mk _ a _ _ => a

def App.author : App → Option String
  | .mk _ _ a _ => a

def App.subs : App → List App
  | .mk _ _ _ s => s

/-- `app.about(desc)` — set the about text. -/
def App.setAbout (a : App) (d : String) : App :=
  match a with
  | .mk n _ au s => .mk n (some d) au s

/-- `app.name(name)` — override the app name. -/
def App.setName (a : App) (n : String) : App :=
  match a with
  | .mk _ ab au s => .mk n ab au s

/-- `app.subcommand(sub)` — append a subcommand. -/
def App.addSub (a : App) (sub : App) : App :=
  match a with
  | .mk n ab au s => .mk n ab au (s ++ [sub])

/-- Mirror of clap 2.x `ArgMatches`: argument values plus at most one
matched subcommand `(name, sub-matches)`. -/
inductive Matches where
  | mk (args : List (String × String)) (sub : Option (String × Matches))
  deriving Repr

def Matches.sub : Matches → Option (String × Matches)
  | .mk _ s => s

/-- `matches.subcommand_matches(name)`: the sub-matches if the matched
subcommand has exactly this name. -/
def Matches.subcommandMatches (m : Matches) (name : String) : Option Matches :=
  match m.sub with
  | some (n, m') => if n = name then some m' else none
  | none => none

/-- Mirror of `struct Help { data: Vec<u8>, cmds: HashMap<String, Help> }`.
The byte buffer is modelled as a `String`; the hash map as an association
list with insert-overwrites semantics. -/
inductive Help where
  | mk (data : String) (cmds : List (String × Help))
  deriving Repr

def Help.data : Help → String
  | .mk d _ => d

def Help.cmds : Help → List (String × Help)
  | .mk _ c => c

/-- `HashMap::insert`: overwrite the binding for `k` if present,
otherwise append it. -/
def hmInsert (m : List (String × Help)) (k : String) (v : Help) :
    List (String × Help) :=
  match m with
  | [] => [(k, v)]
  | (k', v') :: rest =>
      if k' = k then (k, v) :: rest else (k', v') :: hmInsert rest k v

/-- `HashMap::get`: the binding for `k`, if any (bindings are unique by
construction of `hmInsert`). -/
def hmGet (m : List (String × Help)) (k : String) : Option Help :=
  match m with
  | [] => none
  | (k', v') :: rest => if k' = k then some v' else hmGet rest k

mutual
/-- Mirror of `Help::from(app)`: render this node's help text, then
insert one entry per subcommand, keyed by the subcommand's schema name,
built recursively.  `render` abstracts clap's `write_help`. -/
def Help.fromApp (render : App → String) : App → Help
  | .mk n ab au subs =>
      .mk (render (.mk n ab au subs)) (Help.buildMap render subs [])

/-- The `for app in &app.p.subcommands { cmds.insert(..) }` loop of
`Help::from`, threading the accumulated hash map. -/
def Help.buildMap (render : App → String) :
    List App → List (String × Help) → List (String × Help)
  | [], acc => acc
  | a :: rest, acc =>
      Help.buildMap render rest (hmInsert acc a.name (Help.fromApp render a))
end

/-- Mirror of `Commander::write_help`: walk `path` through the help tree
and emit the reached node's data.  `none` models the
`unreachable!("Bad help structure (doesn't match with path)")` panic when
a segment is missing. -/
def writeHelp (help : Help) (path : List String) : Option String :=
  match path with
  | [] => some help.data
  | seg :: rest =>
      match hmGet help.cmds seg with
      | some inner => writeHelp inner rest
      | none => none

/-- Whether the first list occurs at the start of the second. -/
def listStartsWith : List Char → List Char → Bool
  | [], _ => true
  | _ :: _, [] => false
  | p :: ps, c :: cs => p == c && listStartsWith ps cs

/-- Rust `str::find(pat)`: index of the first occurrence of `pat` in
`s`, if any. -/
def findSub : List Char → List Char → Option Nat
  | s, pat =>
      if listStartsWith pat s then some 0
      else
        match s with
        | [] => none
        | _ :: rest => (findSub rest pat).map (· + 1)

/-- Rust `String::find(pat)` + `split_off(index)`: when `pat` occurs in
`s`, the part before the first occurrence and the rest starting with
`pat`; `none` when `pat` does not occur. -/
def splitAtSubstr (s pat : String) : Option (String × String) :=
  match findSub s.data pat.data with
  | none => none
  | some i => some (⟨s.data.take i⟩, ⟨s.data.drop i⟩)

/-- Split a character list at every separator matching `p` (separators
are consumed; adjacent separators yield empty groups). -/
def splitOnP (p : Char → Bool) : List Char → List (List Char)
  | [] => [[]]
  | c :: cs =>
      if p c then [] :: splitOnP p cs
      else
        match splitOnP p cs with
        | [] => [c] :: []
        | g :: gs => (c :: g) :: gs

/-- Rust `str::lines`: split on newline, dropping a final empty piece
(newline is a terminator, not a separator) and a trailing carriage
return on each line. -/
def rustLines (s : String) : List String :=
  let parts := splitOnP (· == '\n') s.data
  let parts := if parts.getLast? = some [] then parts.dropLast else parts
  parts.map fun l => ⟨if l.getLast? = some '\x0d' then l.dropLast else l⟩

/-- `usage.find("[")` + `truncate(index)`: everything before the first
`[`, or the whole string if there is none. -/
def truncAtBracket (s : String) : String :=
  ⟨s.data.takeWhile fun c => c != '['⟩

/-- Rust `str::split_whitespace`: whitespace-separated words, empties
skipped. -/
def splitWhitespace (s : String) : List String :=
  ((splitOnP Char.isWhitespace s.data).filter fun w => w ≠ []).map
    fun l => ⟨l⟩

/-- Mirror of the `Err(err)` arm of `Commander::run_with_args`
(src/lib.rs lines 408-451).  Given the prebuilt help tree and the parse
error, produce the library's user-facing result; `none` models the two
`unreachable!` panics (missing USAGE section / no usage tokens) and the
panic inside `write_help` on an unresolvable path segment. -/
def handleParseErr (help : Help) (err : ClapError) : Option CResult :=
  match err.kind with
  | .helpDisplayed => some (.error err)
  | .versionDisplayed => some (.error err)
  | _ =>
      match splitAtSubstr err.message "\nUSAGE" with
      | none => none
      | some (msg, usage) =>
          match (rustLines usage).drop 2 with
          | [] => none
          | usageLine :: _ =>
              match splitWhitespace (truncAtBracket usageLine) with
              | [] => none
              | _prog :: segs =>
                  match writeHelp help segs with
                  | some txt =>
                      some (.error ⟨msg ++ "\n" ++ txt, .helpDisplayed⟩)
                  | none => none

/-- `clap::crate_name!()` etc.: build-time package metadata, abstracted
as fixed strings. -/
def crateName : String := "clap-nested"

def crateDescription : String := "crate-description"

def crateAuthors : String := "crate-authors"

/-- Mirror of `struct Command<'a, T>`: a single named leaf command with
optional description, option contributor and runner. -/
structure Command (T : Type) where
  name : String
  desc : Option String
  opts : Option (App → App)
  runnerF : Option (T → Matches → CResult)

/-- `Command::new(name)`. -/
def Command.new (name : String) : Command T :=
  ⟨name, none, none, none⟩

/-- `Command::description(desc)`. -/
def Command.description (c : Command T) (d : String) : Command T :=
  { c with desc := some d }

/-- `Command::options(opts)`. -/
def Command.options (c : Command T) (f : App → App) : Command T :=
  { c with opts := some f }

/-- `Command::runner(run)`. -/
def Command.runner (c : Command T) (r : T → Matches → CResult) : Command T :=
  { c with runnerF := some r }

/-- `<Command as CommandLike>::app`: a bare named sub-schema, then the
description, then the option contributor. -/
def Command.app (c : Command T) : App :=
  let a := App.mk c.name none none []
  let a := match c.desc with
    | some d => a.setAbout d
    | none => a
  match c.opts with
  | some f => f a
  | none => a

/-- `<Command as CommandLike>::run`: invoke the runner when set
(propagating its error via `?`), otherwise `Ok(())`. -/
def Command.run (c : Command T) (t : T) (m : Matches) : CResult :=
  match c.runnerF with
  | some f =>
      match f t m with
      | .error e => .error e
      | .ok _ => .ok ()
  | none => .ok ()

mutual
/-- The polymorphic `dyn CommandLike<T>` entries a `Commander` stores:
either a leaf `Command` or a `MultiCommand` (name, optional description,
wrapped inner `Commander`) as produced by `Commander::into_cmd` and
`MultiCommand::description`. -/
inductive CmdLike : Type → Type 1 where
  | leaf : {T : Type} → Command T → CmdLike T
  | multi : {S T : Type} → (name : String) → (desc : Option String) →
      (inner : Commander S T) → CmdLike S

/-- The `Vec<Box<dyn CommandLike<T>>>` of children, as a list type local
to the mutual block (a nested `List` is not allowed here). -/
inductive CmdList : Type → Type 1 where
  | nil : {T : Type} → CmdList T
  | cons : {T : Type} → CmdLike T → CmdList T → CmdList T

/-- Mirror of `struct Commander<'a, S, T>`: option contributor, context
deriver `args`, ordered children, optional `no_cmd` fallback. -/
inductive Commander : Type → Type → Type 1 where
  | mk : {S T : Type} → (opts : Option (App → App)) →
      (argsF : S → Matches → T) → (cmds : CmdList T) →
      (noCmd : Option (T → Matches → CResult)) → Commander S T
end

/-- `Vec::push` on the child list. -/
def CmdList.push : CmdList T → CmdLike T → CmdList T
  | .nil, c => .cons c .nil
  | .cons x rest, c => .cons x (rest.push c)

def Commander.opts : Commander S T → Option (App → App)
  | .mk o _ _ _ => o

def Commander.argsF : Commander S T → S → Matches → T
  | .mk _ a _ _ => a

def Commander.cmds : Commander S T → CmdList T
  | .mk _ _ c _ => c

def Commander.noCmd : Commander S T → Option (T → Matches → CResult)
  | .mk _ _ _ n => n

/-- `Commander::new()`: no options, identity `args`, no children, no
fallback. -/
def Commander.new : Commander S S :=
  .mk none (fun s _ => s) .nil none

/-- `Commander::options(opts)`: store the contributor (replacing any
previous one, as `self.opts = Some(Box::new(opts))` does). -/
def Commander.options (c : Commander S T) (f : App → App) : Commander S T :=
  match c with
  | .mk _ a cs n => .mk (some f) a cs n

/-- `Commander::args(args)`: replace the context deriver; `cmds` and
`no_cmd` are reset ("All other settings are reset."), `opts` carried
over. -/
def Commander.args (c : Commander S T) (f : S → Matches → U) :
    Commander S U :=
  match c with
  | .mk o _ _ _ => .mk o f .nil none

/-- `Commander::add_cmd(cmd)`: append a child. -/
def Commander.add_cmd (c : Commander S T) (cmd : CmdLike T) :
    Commander S T :=
  match c with
  | .mk o a cs n => .mk o a (cs.push cmd) n

/-- `Commander::no_cmd(no_cmd)`: set the fallback handler. -/
def Commander.no_cmd (c : Commander S T) (f : T → Matches → CResult) :
    Commander S T :=
  match c with
  | .mk o a cs _ => .mk o a cs (some f)

/-- `Commander::into_cmd(name)`: wrap as a `MultiCommand` entry. -/
def Commander.into_cmd (c : Commander S T) (name : String) : CmdLike S :=
  .multi name none c

/-- `CommandLike::name` of an entry: the leaf's or the adapter's own
name field. -/
def CmdLike.name : CmdLike T → String
  | .leaf c => c.name
  | .multi n _ _ => n

mutual
/-- `CommandLike::app` of an entry: the leaf's `Command::app`, or for a
`MultiCommand` the inner `Commander::app` with the name overridden and
the description applied when set. -/
def CmdLike.app : {T : Type} → CmdLike T → App
  | _, .leaf c => c.app
  | _, .multi n d inner =>
      let a := (Commander.app inner).setName n
      match d with
      | some dd => a.setAbout dd
      | none => a

/-- `Commander::app`: crate metadata, the registry's own option
contributor, then every child's sub-schema appended in order. -/
def Commander.app : {S T : Type} → Commander S T → App
  | _, _, .mk opts _ cmds _ =>
      let base := App.mk crateName (some crateDescription) (some crateAuthors) []
      let base := match opts with
        | some f => f base
        | none => base
      appAddSubs base cmds

/-- The `fold(app, |app, cmd| app.subcommand(cmd.app()))` of
`Commander::app`. -/
def appAddSubs : {T : Type} → App → CmdList T → App
  | _, a, .nil => a
  | _, a, .cons c rest => appAddSubs (a.addSub (CmdLike.app c)) rest
end

mutual
/-- `Commander::run_with_data`: derive the context, scan children in
order for a subcommand match, otherwise fall back or surface the help
text as a `HelpDisplayed` error.  `none` models a panic (the `unwrap`
on the help lookup). -/
def Commander.runWithData : {S T : Type} → Commander S T → S → Matches →
    Help → Option CResult
  | _, _, .mk _ argsF cmds noCmd, s, m, help =>
      let t := argsF s m
      match runChildren cmds t m help with
      | some r => r
      | none =>
          match noCmd with
          | some f => some (f t m)
          | none => some (.error ⟨help.data, .helpDisplayed⟩)

/-- The `for cmd in &self.cmds` loop of `run_with_data`: `some r` when a
child's name has a subcommand match (`r` is that child's outcome, with
`none` inside modelling the `help.cmds.get(..).unwrap()` panic), `none`
when no child matched. -/
def runChildren : {T : Type} → CmdList T → T → Matches → Help →
    Option (Option CResult)
  | _, .nil, _, _, _ => none
  | _, .cons c rest, t, m, help =>
      match m.subcommandMatches (CmdLike.name c) with
      | some m' =>
          some (match hmGet help.cmds (CmdLike.name c) with
            | some h' => CmdLike.run c t m' h'
            | none => none)
      | none => runChildren rest t m help

/-- `CommandLike::run` of an entry: a leaf runs its `Command::run`
(help unused); a `MultiCommand` delegates to the inner commander's
`run_with_data` with the outer context passed through unchanged. -/
def CmdLike.run : {T : Type} → CmdLike T → T → Matches → Help →
    Option CResult
  | _, .leaf c, t, m, _ => some (c.run t m)
  | _, .multi _ _ inner, t, m, help => Commander.runWithData inner t m help
end

/-- The children as a plain Lean list (for stating membership and
first-match properties). -/
def CmdList.toList : CmdList T → List (CmdLike T)
  | .nil => []
  | .cons c rest => c :: rest.toList

/-- First child carrying the given name, in registration order. -/
def CmdList.findNamed : CmdList T → String → Option (CmdLike T)
  | .nil, _ => none
  | .cons c rest, n => if c.name = n then some c else rest.findNamed n

/-- How many children carry the given name. -/
def CmdList.countNamed : CmdList T → String → Nat
  | .nil, _ => 0
  | .cons c rest, n => (if c.name = n then 1 else 0) + rest.countNamed n

/-- Whether some child's name has a subcommand match in `m` (the loop
guard of `run_with_data` fires for at least one child). -/
def CmdList.anyMatch : CmdList T → Matches → Bool
  | .nil, _ => false
  | .cons c rest, m => (m.subcommandMatches c.name).isSome || rest.anyMatch m

/-- A key list without duplicates, computed like the spec's
"child-name set has no duplicates" invariant. -/
def nodupB : List String → Bool
  | [] => true
  | x :: xs => (!xs.contains x) && nodupB xs

/-- Last schema subcommand carrying the given name (hash-map inserts
overwrite, so the last insert wins for duplicate names). -/
def lastNamed : List App → String → Option App
  | [], _ => none
  | a :: rest, k =>
      match lastNamed rest k with
      | some x => some x
      | none => if a.name = k then some a else none

mutual
/-- Spec invariant on an assembled schema: subcommand names are unique
at every level. -/
def App.wfNames : App → Bool
  | .mk _ _ _ subs => nodupB (subs.map App.name) && App.wfList subs

def App.wfList : List App → Bool
  | [] => true
  | a :: rest => App.wfNames a && App.wfList rest
end

/-- The matches object conforms to a schema: every matched subcommand
(at every depth) names an actual subcommand of the schema and its
sub-matches conform to that sub-schema.  This is what the external
parser guarantees about the matches it yields for this schema. -/
def Matches.conforms : Matches → App → Bool
  | .mk _ none, _ => true
  | .mk _ (some (n, m')), a =>
      a.subs.any fun s => s.name == n && Matches.conforms m' s

/-! Theorems. -/

/-- C6: `Commander::args` returns a registry with an empty child list
and no fallback — whatever children and fallback were previously added —
while the registry's own option contributor is carried over unchanged. -/
theorem args_resets_children_and_fallback (S T U : Type)
    (c : Commander S T) (f : S → Matches → U) :
    (c.args f).cmds = .nil ∧ (c.args f).noCmd = none ∧
      (c.args f).opts = c.opts ∧ (c.args f).argsF = f := by
  cases c
  exact ⟨rfl, rfl, rfl, rfl⟩

/-- An option contributor that records its application by setting the
about text. -/
def contribAbout : App → App := fun a => a.setAbout "from-first-contributor"

/-- An option contributor that records its application by setting the
author field, leaving the about text alone. -/
def contribAuthor : App → App :=
  fun a => App.mk a.name a.about (some "from-second-contributor") a.subs

/-- C7 counterexample: calling `options` twice keeps only the last
contributor.  The schema built after supplying `contribAbout` and then
`contribAuthor` is identical to the schema built from `contribAuthor`
alone, and the first contributor's effect (about text) is absent from
it — even though supplying `contribAbout` alone does produce that
effect. -/
theorem options_twice_counterexample :
    (((Commander.new : Commander Unit Unit).options contribAbout).options
          contribAuthor).app
      = ((Commander.new : Commander Unit Unit).options contribAuthor).app ∧
    (((Commander.new : Commander Unit Unit).options contribAbout).options
          contribAuthor).app.about ≠ some "from-first-contributor" ∧
    ((Commander.new : Commander Unit Unit).options contribAbout).app.about
      = some "from-first-contributor" := by
  refine ⟨rfl, ?_, rfl⟩
  intro h
  simp [Commander.new, Commander.options, Commander.app, appAddSubs,
    contribAbout, contribAuthor, App.setAbout, App.about, crateDescription] at h

/-- C7 amended: `Commander::options` replaces the registry's option
contributor outright (`self.opts = Some(..)`), so after several calls
only the last contributor is stored and the schema built by
`Commander::app` reflects only that one. -/
theorem options_replaces_contributor (S T : Type) (c : Commander S T)
    (f g : App → App) :
    (c.options f).options g = c.options g ∧
      ((c.options f).options g).opts = some g := by
  cases c
  exact ⟨rfl, rfl⟩

/-- C8: a leaf `Command`'s run returns exactly the runner's result when
a runner is set — errors propagate unchanged — and succeeds trivially
when no runner is set; the dispatch engine wraps either outcome without
inspecting it. -/
theorem command_run_propagates_runner_result (T : Type) (nm : String)
    (d : Option String) (o : Option (App → App)) (f : T → Matches → CResult)
    (t : T) (m : Matches) (h : Help) :
    (Command.mk nm d o (some f)).run t m = f t m ∧
    (Command.mk nm d o none).run t m = .ok () ∧
    CmdLike.run (.leaf (Command.mk nm d o (some f))) t m h = some (f t m) ∧
    CmdLike.run (.leaf (Command.mk nm d o none)) t m h = some (.ok ()) := by
  have hrun : (Command.mk nm d o (some f)).run t m = f t m := by
    unfold Command.run
    cases hf : f t m with
    | error e => simp [hf]
    | ok u => cases u; simp [hf]
  refine ⟨hrun, rfl, ?_, rfl⟩
  simp [CmdLike.run, hrun]

/-- When no child's name has a subcommand match, the scan loop of
`run_with_data` falls through. -/
theorem runChildren_eq_none {T : Type} :
    ∀ (cs : CmdList T) (t : T) (m : Matches) (h : Help),
      cs.anyMatch m = false → runChildren cs t m h = none
  | .nil, _, _, _, _ => rfl
  | .cons c rest, t, m, h, hnm => by
      simp only [CmdList.anyMatch, Bool.or_eq_false_iff] at hnm
      obtain ⟨h1, h2⟩ := hnm
      cases hsc : m.subcommandMatches c.name with
      | some m' => rw [hsc] at h1; simp at h1
      | none =>
          simp only [runChildren, hsc]
          exact runChildren_eq_none rest t m h h2

/-- When the matches object carries subcommand `(n, m')`, the scan loop
selects the first child named `n` and yields that child's run on `m'`
with the help entry looked up under `n`. -/
theorem runChildren_found {T : Type} :
    ∀ (cs : CmdList T) (t : T) (m : Matches) (h : Help) (n : String)
      (m' : Matches) (cmd : CmdLike T) (h' : Help),
      m.sub = some (n, m') → cs.findNamed n = some cmd →
      hmGet h.cmds n = some h' →
      runChildren cs t m h = some (CmdLike.run cmd t m' h')
  | .nil, _, _, _, _, _, _, _, _, hf, _ => by
      simp [CmdList.findNamed] at hf
  | .cons c rest, t, m, h, n, m', cmd, h', hsub, hf, hh => by
      by_cases hcn : c.name = n
      · subst hcn
        have hm : m.subcommandMatches c.name = some m' := by
          simp [Matches.subcommandMatches, hsub]
        simp only [CmdList.findNamed, if_pos] at hf
        injection hf with hf
        subst hf
        simp only [runChildren, hm, hh]
      · have hm : m.subcommandMatches c.name = none := by
          simp only [Matches.subcommandMatches, hsub]
          exact if_neg fun he => hcn he.symm
        have hf' : rest.findNamed n = some cmd := by
          simpa only [CmdList.findNamed, if_neg hcn] using hf
        simp only [runChildren, hm]
        exact runChildren_found rest t m h n m' cmd h' hsub hf' hh

/-- C1: for a registry in which name `n` is registered exactly once,
dispatching matches that carry subcommand `(n, m')` selects that child —
the first child in registration order named `n` — and runs it with the
matched sub-arguments `m'` and its looked-up help node, whatever other
children exist. -/
theorem dispatch_first_named_child (S T : Type) (c : Commander S T)
    (s : S) (m : Matches) (h : Help) (n : String) (m' : Matches)
    (cmd : CmdLike T) (h' : Help)
    (hsub : m.sub = some (n, m'))
    (honce : c.cmds.countNamed n = 1)
    (hfind : c.cmds.findNamed n = some cmd)
    (hh : hmGet h.cmds n = some h') :
    c.runWithData s m h = CmdLike.run cmd (c.argsF s m) m' h' := by
  cases c with
  | mk o aF cs nc =>
      simp only [Commander.cmds] at hfind
      simp only [Commander.runWithData, Commander.argsF,
        runChildren_found cs (aF s m) m h n m' cmd h' hsub hfind hh]

/-- C1 witness: in a registry with children `bar` then `foo`, matches
selecting `foo` run `foo`'s runner on the derived context. -/
def w1Foo : CmdLike String :=
  .leaf (Command.mk "foo" none none (some fun t _ =>
    if t = "dev" then .ok () else .error ⟨"wrong-context", .unknownArgument⟩))

def w1Bar : CmdLike String := .leaf (Command.mk "bar" none none none)

def w1Cmdr : Commander Unit String :=
  .mk none (fun _ _ => "dev") (.cons w1Bar (.cons w1Foo .nil)) none

def w1M : Matches := .mk [] (some ("foo", .mk [] none))

def w1H : Help := .mk "root" [("bar", .mk "barh" []), ("foo", .mk "fooh" [])]

theorem dispatch_first_named_child_witness :
    w1Cmdr.cmds.countNamed "foo" = 1 ∧
    w1Cmdr.runWithData () w1M w1H = some (.ok ()) := by
  refine ⟨rfl, ?_⟩
  rw [dispatch_first_named_child Unit String w1Cmdr () w1M w1H "foo"
    (.mk [] none) w1Foo (.mk "fooh" []) rfl rfl rfl rfl]
  rfl

/-- C2: when no child matches, a registry with no fallback surfaces a
`HelpDisplayed` error whose message is exactly the help snapshot text of
the node handed to dispatch, and a registry with a fallback returns the
fallback's result instead. -/
theorem no_match_uses_fallback_or_help (S T : Type) (c : Commander S T)
    (s : S) (m : Matches) (h : Help)
    (hnm : c.cmds.anyMatch m = false) :
    (c.noCmd = none →
      c.runWithData s m h = some (.error ⟨h.data, .helpDisplayed⟩)) ∧
    (∀ f, c.noCmd = some f →
      c.runWithData s m h = some (f (c.argsF s m) m)) := by
  cases c with
  | mk o aF cs nc =>
      simp only [Commander.cmds] at hnm
      have hrc := runChildren_eq_none cs (aF s m) m h hnm
      constructor
      · intro hnc
        simp only [Commander.noCmd] at hnc
        subst hnc
        simp only [Commander.runWithData, hrc]
      · intro f hnc
        simp only [Commander.noCmd] at hnc
        subst hnc
        simp only [Commander.runWithData, Commander.argsF, hrc]

/-- C2 witness: a two-child registry with no fallback, on matches with
no subcommand, yields the `HelpDisplayed` error carrying the given
node's snapshot text. -/
def w2Cmdr : Commander Unit Unit :=
  .mk none (fun s _ => s)
    (.cons (.leaf (Command.mk "foo" none none none))
      (.cons (.leaf (Command.mk "bar" none none none)) .nil)) none

theorem no_match_uses_fallback_or_help_witness :
    w2Cmdr.cmds.anyMatch (.mk [] none) = false ∧
    w2Cmdr.runWithData () (.mk [] none) (.mk "roothelp" [])
      = some (.error ⟨"roothelp", .helpDisplayed⟩) :=
  ⟨rfl, (no_match_uses_fallback_or_help Unit Unit w2Cmdr () (.mk [] none)
    (.mk "roothelp" []) rfl).1 rfl⟩

/-- C9: context derivation composes through nesting.  For an outer
registry deriving its context with `d1` from unit and containing (via
the `MultiCommand` adapter) an inner registry deriving with `d2`, a
matched runner inside the inner registry receives exactly
`d2 (d1 () m) m1` — the adapter hands the outer-derived context through
unchanged as the inner registry's parent context. -/
theorem nested_context_composes (C1T C2T : Type)
    (o1 : Option (App → App)) (d1 : Unit → Matches → C1T)
    (cs1 : CmdList C1T) (nc1 : Option (C1T → Matches → CResult))
    (o2 : Option (App → App)) (d2 : C1T → Matches → C2T)
    (cs2 : CmdList C2T) (nc2 : Option (C2T → Matches → CResult))
    (n1 n2 : String) (dm dsc : Option String)
    (lopts : Option (App → App)) (r : C2T → Matches → CResult)
    (m m1 m2 : Matches) (h h1 h2 : Help)
    (hsub1 : m.sub = some (n1, m1)) (hsub2 : m1.sub = some (n2, m2))
    (hfind1 : cs1.findNamed n1
      = some (.multi n1 dm (Commander.mk o2 d2 cs2 nc2)))
    (hfind2 : cs2.findNamed n2
      = some (.leaf (Command.mk n2 dsc lopts (some r))))
    (hh1 : hmGet h.cmds n1 = some h1)
    (hh2 : hmGet h1.cmds n2 = some h2) :
    Commander.runWithData (.mk o1 d1 cs1 nc1) () m h
      = some (r (d2 (d1 () m) m1) m2) := by
  have e1 := runChildren_found cs1 (d1 () m) m h n1 m1 _ h1 hsub1 hfind1 hh1
  have e2 := runChildren_found cs2 (d2 (d1 () m) m1) m1 h1 n2 m2 _ h2
    hsub2 hfind2 hh2
  simp only [Commander.runWithData, e1, CmdLike.run, e2]
  cases hr : r (d2 (d1 () m) m1) m2 with
  | error e => simp [Command.run, hr]
  | ok u => cases u; simp [Command.run, hr]

/-- C9 witness inner registry: derives a `Nat` context (the length of
the outer-derived string) and holds one leaf whose runner checks it. -/
def w9Runner : Nat → Matches → CResult := fun c _ =>
  if c = 3 then .ok () else .error ⟨"wrong-context", .unknownArgument⟩

def w9Cs2 : CmdList Nat :=
  .cons (.leaf (Command.mk "leafc" none none (some w9Runner))) .nil

def w9D1 : Unit → Matches → String := fun _ _ => "dev"

def w9D2 : String → Matches → Nat := fun s _ => s.length

def w9Cs1 : CmdList String :=
  .cons (.multi "grp" none (.mk none w9D2 w9Cs2 none)) .nil

def w9M2 : Matches := .mk [] none

def w9M1 : Matches := .mk [] (some ("leafc", w9M2))

def w9M : Matches := .mk [] (some ("grp", w9M1))

def w9H2 : Help := .mk "h2" []

def w9H1 : Help := .mk "h1" [("leafc", w9H2)]

def w9H : Help := .mk "h0" [("grp", w9H1)]

theorem nested_context_composes_witness :
    Commander.runWithData (.mk none w9D1 w9Cs1 none) () w9M w9H
      = some (.ok ()) := by
  rw [nested_context_composes String Nat none w9D1 w9Cs1 none none w9D2
    w9Cs2 none "grp" "leafc" none none none w9Runner w9M w9M1 w9M2
    w9H w9H1 w9H2 rfl rfl rfl rfl rfl rfl]
  rfl

/-- C3: in the parse-error arm of `run_with_args`, a help- or
version-requested error is returned unchanged, and every other parse
error whose message decomposes as expected is rewritten into a
`HelpDisplayed` error whose message is the original text up to the
USAGE section, a newline, then the snapshot text of the node reached by
walking the USAGE-line tokens after the program name (the line having
been truncated at the first `[`). -/
theorem parse_error_rewrite (help : Help) (err : ClapError) :
    (err.kind = .helpDisplayed ∨ err.kind = .versionDisplayed →
      handleParseErr help err = some (.error err)) ∧
    (∀ msg usage uline lrest prog segs txt,
      err.kind ≠ .helpDisplayed → err.kind ≠ .versionDisplayed →
      splitAtSubstr err.message "\nUSAGE" = some (msg, usage) →
      (rustLines usage).drop 2 = uline :: lrest →
      splitWhitespace (truncAtBracket uline) = prog :: segs →
      writeHelp help segs = some txt →
      handleParseErr help err
        = some (.error ⟨msg ++ "\n" ++ txt, .helpDisplayed⟩)) := by
  constructor
  · rintro (hk | hk) <;> simp [handleParseErr, hk]
  · intro msg usage uline lrest prog segs txt hk1 hk2 hs hl hw hwh
    unfold handleParseErr
    cases hkind : err.kind with
    | helpDisplayed => exact absurd hkind hk1
    | versionDisplayed => exact absurd hkind hk2
    | unknownArgument => simp [hs, hl, hw, hwh]
    | invalidSubcommand => simp [hs, hl, hw, hwh]
    | missingRequiredArgument => simp [hs, hl, hw, hwh]

theorem parse_error_rewrite_witness :
    handleParseErr (.mk "root" [("foo", .mk "foohelp" [])])
        ⟨"error: bad\n\nUSAGE:\n    prog foo\n\nmore", .unknownArgument⟩
      = some (.error ⟨"error: bad\n\nfoohelp", .helpDisplayed⟩) :=
  (parse_error_rewrite (.mk "root" [("foo", .mk "foohelp" [])])
      ⟨"error: bad\n\nUSAGE:\n    prog foo\n\nmore", .unknownArgument⟩).2
    "error: bad\n" "\nUSAGE:\n    prog foo\n\nmore" "    prog foo"
    ["", "more"] "prog" ["foo"] "foohelp"
    (by decide) (by decide) rfl rfl rfl rfl

/-- C4 counterexample: a parse error whose USAGE line names the segment
`ghost`, against a help tree with no child `ghost`, does not produce a
combined message ending in the root snapshot text — the code panics
(`unreachable!` inside `write_help`, modelled as `none`) instead of
falling back to the root help. -/
theorem unresolvable_segment_counterexample :
    handleParseErr (.mk "ROOTHELP" [])
        ⟨"error: x\n\nUSAGE:\n    prog ghost\n\nmore", .unknownArgument⟩
      = none ∧
    handleParseErr (.mk "ROOTHELP" [])
        ⟨"error: x\n\nUSAGE:\n    prog ghost\n\nmore", .unknownArgument⟩
      ≠ some (.error ⟨"error: x\n\nROOTHELP", .helpDisplayed⟩) := by
  have h0 : handleParseErr (.mk "ROOTHELP" [])
      ⟨"error: x\n\nUSAGE:\n    prog ghost\n\nmore", .unknownArgument⟩
      = none := rfl
  exact ⟨h0, by rw [h0]; exact fun h => Option.noConfusion h⟩

/-- C4 amended: when some extracted path segment does not resolve in
the help tree, the rewrite aborts (the `write_help` panic, modelled as
`none`) rather than producing any combined message; the root help text
is attached only in the case where the token list after the program
name is empty. -/
theorem unresolvable_segment_panics (help : Help) (err : ClapError)
    (msg usage uline : String) (lrest : List String) (prog : String)
    (segs : List String)
    (hk1 : err.kind ≠ .helpDisplayed) (hk2 : err.kind ≠ .versionDisplayed)
    (hs : splitAtSubstr err.message "\nUSAGE" = some (msg, usage))
    (hl : (rustLines usage).drop 2 = uline :: lrest)
    (hw : splitWhitespace (truncAtBracket uline) = prog :: segs) :
    (writeHelp help segs = none → handleParseErr help err = none) ∧
    (segs = [] →
      handleParseErr help err
        = some (.error ⟨msg ++ "\n" ++ help.data, .helpDisplayed⟩)) := by
  constructor
  · intro hbad
    unfold handleParseErr
    cases hkind : err.kind with
    | helpDisplayed => exact absurd hkind hk1
    | versionDisplayed => exact absurd hkind hk2
    | unknownArgument => simp [hs, hl, hw, hbad]
    | invalidSubcommand => simp [hs, hl, hw, hbad]
    | missingRequiredArgument => simp [hs, hl, hw, hbad]
  · intro hsegs
    subst hsegs
    unfold handleParseErr
    cases hkind : err.kind with
    | helpDisplayed => exact absurd hkind hk1
    | versionDisplayed => exact absurd hkind hk2
    | unknownArgument => simp [hs, hl, hw, writeHelp]
    | invalidSubcommand => simp [hs, hl, hw, writeHelp]
    | missingRequiredArgument => simp [hs, hl, hw, writeHelp]

theorem unresolvable_segment_panics_witness :
    handleParseErr (.mk "ROOTHELP" [("known", .mk "kh" [])])
        ⟨"error: y\n\nUSAGE:\n    prog nothere\n\nmore", .unknownArgument⟩
      = none :=
  (unresolvable_segment_panics (.mk "ROOTHELP" [("known", .mk "kh" [])])
      ⟨"error: y\n\nUSAGE:\n    prog nothere\n\nmore", .unknownArgument⟩
      "error: y\n" "\nUSAGE:\n    prog nothere\n\nmore" "    prog nothere"
      ["", "more"] "prog" ["nothere"]
      (by decide) (by decide) rfl rfl rfl).1 rfl

/-- C5: a parse error (other than help/version requested) whose
formatted message has no `"\nUSAGE"` marker, or whose usage line yields
an empty token list, is not returned as a user-facing result: the code
hits `unreachable!` (modelled as `none`), an internal-consistency abort
distinct from ordinary user errors. -/
theorem missing_usage_panics (help : Help) (err : ClapError)
    (hk1 : err.kind ≠ .helpDisplayed)
    (hk2 : err.kind ≠ .versionDisplayed) :
    (splitAtSubstr err.message "\nUSAGE" = none →
      handleParseErr help err = none) ∧
    (∀ msg usage uline lrest,
      splitAtSubstr err.message "\nUSAGE" = some (msg, usage) →
      (rustLines usage).drop 2 = uline :: lrest →
      splitWhitespace (truncAtBracket uline) = [] →
      handleParseErr help err = none) := by
  constructor
  · intro hs
    unfold handleParseErr
    cases hkind : err.kind with
    | helpDisplayed => exact absurd hkind hk1
    | versionDisplayed => exact absurd hkind hk2
    | unknownArgument => simp [hs]
    | invalidSubcommand => simp [hs]
    | missingRequiredArgument => simp [hs]
  · intro msg usage uline lrest hs hl hw
    unfold handleParseErr
    cases hkind : err.kind with
    | helpDisplayed => exact absurd hkind hk1
    | versionDisplayed => exact absurd hkind hk2
    | unknownArgument => simp [hs, hl, hw]
    | invalidSubcommand => simp [hs, hl, hw]
    | missingRequiredArgument => simp [hs, hl, hw]

theorem missing_usage_panics_witness :
    handleParseErr (.mk "ROOTHELP" [])
        ⟨"error: entirely usage-free", .invalidSubcommand⟩ = none :=
  (missing_usage_panics (.mk "ROOTHELP" [])
      ⟨"error: entirely usage-free", .invalidSubcommand⟩
      (by decide) (by decide)).1 rfl

/-! Lemmas describing the help map built by `Help::from`, toward the
safety of the `help.cmds.get(..).unwrap()` lookup in `run_with_data`. -/

theorem hmGet_hmInsert :
    ∀ (mp : List (String × Help)) (k : String) (v : Help) (k' : String),
      hmGet (hmInsert mp k v) k' = if k = k' then some v else hmGet mp k'
  | [], k, v, k' => by simp [hmInsert, hmGet]
  | (k0, v0) :: rest, k, v, k' => by
      by_cases h0 : k0 = k
      · subst h0
        simp only [hmInsert, if_pos rfl]
        by_cases h1 : k0 = k'
        · subst h1
          simp [hmGet]
        · simp [hmGet, h1]
      · simp only [hmInsert, if_neg h0]
        by_cases h1 : k0 = k'
        · subst h1
          rw [if_neg fun h : k = k0 => h0 h.symm]
          simp [hmGet]
        · simp [hmGet, h1, hmGet_hmInsert rest k v k']

theorem contains_false_not_mem :
    ∀ (l : List String) (x : String), l.contains x = false → ¬ x ∈ l
  | [], _, _, hx => by cases hx
  | a :: rest, x, h, hx => by
      simp only [List.contains_cons, Bool.or_eq_false_iff,
        beq_eq_false_iff_ne] at h
      cases hx with
      | head => exact h.1 rfl
      | tail _ hx' => exact contains_false_not_mem rest x h.2 hx'

theorem lastNamed_eq_none :
    ∀ (l : List App) (k : String),
      (∀ x ∈ l, App.name x ≠ k) → lastNamed l k = none
  | [], _, _ => rfl
  | a :: rest, k, h => by
      rw [lastNamed, lastNamed_eq_none rest k fun x hx => h x (.tail _ hx)]
      simp [h a (.head _)]

theorem lastNamed_unique :
    ∀ (l : List App) (k : String) (sub : App),
      nodupB (l.map App.name) = true → sub ∈ l → App.name sub = k →
      lastNamed l k = some sub
  | a :: rest, k, sub, hnd, hmem, hname => by
      simp only [List.map_cons, nodupB, Bool.and_eq_true,
        Bool.not_eq_true'] at hnd
      obtain ⟨hc, hnd'⟩ := hnd
      cases hmem with
      | head =>
          have hnone : lastNamed rest k = none := by
            apply lastNamed_eq_none
            intro x hx hxk
            exact contains_false_not_mem _ _ hc
              (hname ▸ hxk ▸ List.mem_map_of_mem App.name hx)
          rw [lastNamed, hnone]
          simp [hname]
      | tail _ hmem' =>
          rw [lastNamed, lastNamed_unique rest k sub hnd' hmem' hname]

theorem lastNamed_isSome :
    ∀ (l : List App) (k : String),
      (lastNamed l k).isSome = (l.map App.name).contains k
  | [], _ => rfl
  | a :: rest, k => by
      rw [lastNamed]
      cases hl : lastNamed rest k with
      | some x =>
          have h2 : (rest.map App.name).contains k = true := by
            rw [← lastNamed_isSome rest k, hl]
            rfl
          simp only [List.map_cons, List.contains_cons, h2, Bool.or_true,
            Option.isSome_some]
      | none =>
          have h2 : (rest.map App.name).contains k = false := by
            rw [← lastNamed_isSome rest k, hl]
            rfl
          simp only [List.map_cons, List.contains_cons, h2, Bool.or_false]
          by_cases hak : App.name a = k
          · simp [hak]
          · have hb : (k == App.name a) = false :=
              beq_eq_false_iff_ne.mpr fun h => hak h.symm
            simp [hak, hb]

theorem fromApp_cmds (render : App → String) (a : App) :
    (Help.fromApp render a).cmds = Help.buildMap render a.subs [] := by
  cases a
  rw [Help.fromApp]
  rfl

theorem fromApp_data (render : App → String) (a : App) :
    (Help.fromApp render a).data = render a := by
  cases a
  rw [Help.fromApp]
  rfl

theorem hmGet_buildMap (render : App → String) :
    ∀ (l : List App) (acc : List (String × Help)) (k : String),
      hmGet (Help.buildMap render l acc) k
        = match lastNamed l k with
          | some x => some (Help.fromApp render x)
          | none => hmGet acc k
  | [], acc, k => by simp [Help.buildMap, lastNamed]
  | a :: rest, acc, k => by
      rw [Help.buildMap, hmGet_buildMap render rest _ k, lastNamed]
      cases hl : lastNamed rest k with
      | some x => simp
      | none =>
          simp only [hmGet_hmInsert]
          by_cases hak : App.name a = k <;> simp [hak]

/-- The help node stored under key `k` is the one built from the unique
schema subcommand named `k`. -/
theorem hmGet_fromApp (render : App → String) (a : App) (k : String)
    (sub : App) (hnd : nodupB (a.subs.map App.name) = true)
    (hmem : sub ∈ a.subs) (hname : App.name sub = k) :
    hmGet (Help.fromApp render a).cmds k = some (Help.fromApp render sub) := by
  rw [fromApp_cmds, hmGet_buildMap, lastNamed_unique a.subs k sub hnd hmem hname]

/-! Structural facts about assembled schemas. -/

theorem setName_subs (a : App) (n : String) : (a.setName n).subs = a.subs := by
  cases a
  rfl

theorem setAbout_subs (a : App) (d : String) : (a.setAbout d).subs = a.subs := by
  cases a
  rfl

theorem addSub_subs (a : App) (x : App) : (a.addSub x).subs = a.subs ++ [x] := by
  cases a
  rfl

theorem multi_app_name (S T : Type) (n : String) (d : Option String)
    (inner : Commander S T) :
    (CmdLike.app (.multi n d inner)).name = n := by
  cases d with
  | none =>
      rw [CmdLike.app]
      cases Commander.app inner
      rfl
  | some dd =>
      rw [CmdLike.app]
      cases Commander.app inner
      rfl

theorem multi_app_subs (S T : Type) (n : String) (d : Option String)
    (inner : Commander S T) :
    (CmdLike.app (.multi n d inner)).subs = (Commander.app inner).subs := by
  cases d with
  | none =>
      rw [CmdLike.app]
      exact setName_subs _ n
  | some dd =>
      rw [CmdLike.app]
      rw [setAbout_subs, setName_subs]

theorem appAddSubs_subs {T : Type} :
    ∀ (cs : CmdList T) (a : App),
      (appAddSubs a cs).subs = a.subs ++ cs.toList.map CmdLike.app
  | .nil, a => by simp [appAddSubs, CmdList.toList]
  | .cons c rest, a => by
      rw [appAddSubs, appAddSubs_subs rest, addSub_subs]
      simp [CmdList.toList]

/-- Every child's sub-schema is among the assembled schema's
subcommands. -/
theorem mem_commander_app_subs {S T : Type} (c : Commander S T)
    (cmd : CmdLike T) (hmem : cmd ∈ (Commander.cmds c).toList) :
    CmdLike.app cmd ∈ (Commander.app c).subs := by
  cases c with
  | mk o aF cs nc =>
      simp only [Commander.cmds] at hmem
      simp only [Commander.app, appAddSubs_subs]
      exact List.mem_append_right _ (List.mem_map_of_mem _ hmem)

/-! Inversion lemmas for conformance and well-formedness. -/

theorem subcommandMatches_some (m : Matches) (nm : String) (m' : Matches)
    (h : m.subcommandMatches nm = some m') : m.sub = some (nm, m') := by
  unfold Matches.subcommandMatches at h
  cases hs : m.sub with
  | none => rw [hs] at h; exact Option.noConfusion h
  | some p =>
      obtain ⟨n0, mm⟩ := p
      rw [hs] at h
      change (if n0 = nm then some mm else none) = some m' at h
      by_cases hn : n0 = nm
      · subst hn
        rw [if_pos rfl] at h
        injection h with h
        rw [h]
      · rw [if_neg hn] at h
        exact Option.noConfusion h

theorem conforms_sub (m : Matches) (a : App) (n : String) (m' : Matches)
    (hconf : m.conforms a = true) (hsub : m.sub = some (n, m')) :
    ∃ s ∈ a.subs, App.name s = n ∧ m'.conforms s = true := by
  cases m with
  | mk margs msub =>
      simp only [Matches.sub] at hsub
      subst hsub
      simp only [Matches.conforms, List.any_eq_true] at hconf
      obtain ⟨s, hsmem, hs⟩ := hconf
      rw [Bool.and_eq_true, beq_iff_eq] at hs
      exact ⟨s, hsmem, hs.1, hs.2⟩

theorem wfNames_parts (a : App) (h : App.wfNames a = true) :
    nodupB (a.subs.map App.name) = true ∧ App.wfList a.subs = true := by
  cases a with
  | mk n ab au subs =>
      rw [App.wfNames, Bool.and_eq_true] at h
      exact h

theorem wfList_mem :
    ∀ (l : List App) (x : App), App.wfList l = true → x ∈ l →
      App.wfNames x = true
  | [], _, _, hx => by cases hx
  | a :: rest, x, h, hx => by
      rw [App.wfList, Bool.and_eq_true] at h
      cases hx with
      | head => exact h.1
      | tail _ hx' => exact wfList_mem rest x h.2 hx'

/-- Two schema subcommands with the same name are the same subcommand
when names are unique. -/
theorem nodupB_name_inj :
    ∀ (l : List App) (x y : App),
      nodupB (l.map App.name) = true → x ∈ l → y ∈ l →
      App.name x = App.name y → x = y
  | a :: rest, x, y, hnd, hx, hy, hname => by
      simp only [List.map_cons, nodupB, Bool.and_eq_true,
        Bool.not_eq_true'] at hnd
      obtain ⟨hc, hnd'⟩ := hnd
      cases hx with
      | head =>
          cases hy with
          | head => rfl
          | tail _ hy' =>
              exact absurd (hname ▸ List.mem_map_of_mem App.name hy')
                (contains_false_not_mem _ _ hc)
      | tail _ hx' =>
          cases hy with
          | head =>
              exact absurd (hname ▸ List.mem_map_of_mem App.name hx')
                (contains_false_not_mem _ _ hc)
          | tail _ hy' => exact nodupB_name_inj rest x y hnd' hx' hy' hname

mutual
/-- Dispatch over a help tree built by `Help::from` from a schema `a`
with unique names never panics, provided the matches conform to `a` and
every child's sub-schema is among `a`'s subcommands. -/
theorem commander_no_panic : ∀ {S T : Type} (c : Commander S T) (s : S)
    (m : Matches) (a : App) (render : App → String),
    App.wfNames a = true → m.conforms a = true →
    (∀ cmd ∈ (Commander.cmds c).toList, CmdLike.app cmd ∈ a.subs) →
    (Commander.runWithData c s m (Help.fromApp render a)).isSome = true
  | _, _, .mk o aF cs nc, s, m, a, render, hwf, hconf, hmem => by
      have hmem' : ∀ cmd ∈ cs.toList, CmdLike.app cmd ∈ a.subs := by
        simpa only [Commander.cmds] using hmem
      cases hrc : runChildren cs (aF s m) m (Help.fromApp render a) with
      | none =>
          cases nc with
          | none => simp [Commander.runWithData, hrc]
          | some f => simp [Commander.runWithData, hrc]
      | some r =>
          have hr := children_no_panic cs (aF s m) m a render hwf hconf
            hmem' r hrc
          simpa [Commander.runWithData, hrc] using hr

/-- The scan loop never yields a panicking child outcome under the same
conditions: a matched leaf always runs, and a matched adapter recurses
into a help node built from that child's own sub-schema. -/
theorem children_no_panic : ∀ {T : Type} (cs : CmdList T) (t : T)
    (m : Matches) (a : App) (render : App → String),
    App.wfNames a = true → m.conforms a = true →
    (∀ cmd ∈ cs.toList, CmdLike.app cmd ∈ a.subs) →
    ∀ r, runChildren cs t m (Help.fromApp render a) = some r →
    r.isSome = true
  | _, .nil, t, m, a, render, _, _, _, r, hrc => by
      rw [runChildren] at hrc
      exact Option.noConfusion hrc
  | _, .cons c rest, t, m, a, render, hwf, hconf, hmem, r, hrc => by
      cases hsc : m.subcommandMatches (CmdLike.name c) with
      | none =>
          rw [runChildren, hsc] at hrc
          exact children_no_panic rest t m a render hwf hconf
            (fun cmd hm => hmem cmd (.tail _ hm)) r hrc
      | some m' =>
          have hsub := subcommandMatches_some m (CmdLike.name c) m' hsc
          obtain ⟨subApp, hsmem, hsname, hsconf⟩ :=
            conforms_sub m a (CmdLike.name c) m' hconf hsub
          obtain ⟨hnd, hwl⟩ := wfNames_parts a hwf
          have hget := hmGet_fromApp render a (CmdLike.name c) subApp hnd
            hsmem hsname
          rw [runChildren, hsc, hget] at hrc
          injection hrc with hrc
          subst hrc
          match c, hsc with
          | .leaf cmd, _ => simp [CmdLike.run]
          | .multi n d inner, hsc =>
              have happmem : CmdLike.app (.multi n d inner) ∈ a.subs :=
                hmem _ (.head _)
              have hname2 : App.name (CmdLike.app (.multi n d inner))
                  = App.name subApp := by
                rw [multi_app_name, hsname]
                rfl
              have heq : CmdLike.app (.multi n d inner) = subApp :=
                nodupB_name_inj a.subs _ _ hnd happmem hsmem hname2
              show (Commander.runWithData inner t m'
                (Help.fromApp render subApp)).isSome = true
              apply commander_no_panic inner t m' subApp render
                (wfList_mem a.subs subApp hwl hsmem) hsconf
              intro icmd him
              rw [← heq, multi_app_subs]
              exact mem_commander_app_subs inner icmd him
end

/-- C10: for a registry whose `Help` tree is built by `Help::from` from
the registry's own assembled schema (as `run_with_args` does), the help
tree has exactly the schema's subcommand names as keys at every level;
consequently — for matches conforming to the schema, and subcommand
names unique as the data-model invariant requires — every matched
child's help lookup succeeds at any depth, so the
`help.cmds.get(..).unwrap()` in `run_with_data` never panics (dispatch
never returns the `none` that models that panic). -/
theorem help_lookup_never_panics (S T : Type) (c : Commander S T) (s : S)
    (m : Matches) (render : App → String)
    (hwf : App.wfNames (Commander.app c) = true)
    (hconf : m.conforms (Commander.app c) = true) :
    (∀ (b : App) (n : String),
      (hmGet (Help.fromApp render b).cmds n).isSome
        = (b.subs.map App.name).contains n) ∧
    (Commander.runWithData c s m
        (Help.fromApp render (Commander.app c))).isSome = true := by
  constructor
  · intro b n
    rw [fromApp_cmds, hmGet_buildMap, ← lastNamed_isSome]
    cases lastNamed b.subs n <;> rfl
  · exact commander_no_panic c s m (Commander.app c) render hwf hconf
      fun cmd hm => mem_commander_app_subs c cmd hm

def w10Cmdr : Commander Unit Unit :=
  .mk none (fun s _ => s)
    (.cons (.leaf (Command.mk "foo" none none none)) .nil) none

def w10M : Matches := .mk [] (some ("foo", .mk [] none))

theorem help_lookup_never_panics_witness :
    App.wfNames (Commander.app w10Cmdr) = true ∧
    (Commander.runWithData w10Cmdr () w10M
        (Help.fromApp (fun _ => "h") (Commander.app w10Cmdr))).isSome
      = true :=
  ⟨rfl, (help_lookup_never_panics Unit Unit w10Cmdr () w10M
    (fun _ => "h") rfl rfl).2⟩

end ClapNested
